import Mathlib

/-!
Shallow embedding of the MITCH market-data codec (src/model/model.h and
src/examples/example.c) together with proofs about its packing, unpacking
and stream-framing behaviour.

Modelling conventions:
* A byte buffer is a `List Nat`; every store of a C `uint8_t` is capped by
  `% 256`, mirroring the machine type.
* C `double` fields are transported by `memcpy` of their 8-byte IEEE-754 bit
  pattern (`write_double_be` / `read_double_be`); we therefore embed each
  `double` field as its 64-bit bit pattern (a `Nat` below `2^64`), which the
  codec moves verbatim.
* `size_t` arithmetic is modelled as `Nat` arithmetic reduced `% 2^64`,
  `uint16_t` values as `Nat` below `2^16`.
-/

namespace Mitch

/-- Width of the C `size_t` type on the supported 64-bit targets. -/
def U64 : Nat := 2 ^ 64

/-- Message type tag for trades, ASCII character t. -/
def MITCH_MSG_TYPE_TRADE : Nat := 116

/-- Message type tag for orders, ASCII character o. -/
def MITCH_MSG_TYPE_ORDER : Nat := 111

/-- Message type tag for tickers, ASCII character s. -/
def MITCH_MSG_TYPE_TICKER : Nat := 115

/-- Message type tag for order books, ASCII character q. -/
def MITCH_MSG_TYPE_ORDER_BOOK : Nat := 113

/-- Big-endian bytes of a `uint16_t` value, as written by `htons`. -/
def be16 (v : Nat) : List Nat := [v / 256 % 256, v % 256]

/-- Big-endian bytes of a `uint32_t` value, as written by `htonl`. -/
def be32 (v : Nat) : List Nat :=
  [v / 16777216 % 256, v / 65536 % 256, v / 256 % 256, v % 256]

/-- Big-endian bytes of a `uint64_t` value, as written by `htobe64`
(also used by `write_double_be` on the bit pattern of a double). -/
def be64 (v : Nat) : List Nat :=
  [v / 72057594037927936 % 256, v / 281474976710656 % 256,
   v / 1099511627776 % 256, v / 4294967296 % 256,
   v / 16777216 % 256, v / 65536 % 256, v / 256 % 256, v % 256]

/-- Value of a big-endian byte run, as recovered by `ntohs` / `ntohl` /
`be64toh` after a `memcpy` from the buffer. -/
def rdBytes (bs : List Nat) : Nat := bs.foldl (fun acc b => acc * 256 + b % 256) 0

/-- The in-memory header record (`MitchHeader` in model.h). -/
structure MitchHeader where
  message_type : Nat
  timestamp : List Nat
  count : Nat

/-- The in-memory trade record (`Trade` in example.c / `TradeBody` in
model.h).  `price` is the 64-bit IEEE-754 bit pattern of the C double. -/
structure Trade where
  ticker_id : Nat
  price : Nat
  quantity : Nat
  trade_id : Nat
  side : Nat
  padding : List Nat

/-- The in-memory order record.  `price` is a 64-bit double bit pattern;
`expiry` is the 6-byte timestamp array. -/
structure Order where
  ticker_id : Nat
  order_id : Nat
  price : Nat
  quantity : Nat
  type_and_side : Nat
  expiry : List Nat
  padding : Nat

/-- The in-memory ticker record (`Tick`); the two prices are 64-bit double
bit patterns. -/
structure Tick where
  ticker_id : Nat
  bid_price : Nat
  ask_price : Nat
  bid_volume : Nat
  ask_volume : Nat

/-- The fixed part of the in-memory order-book record; `first_tick` and
`tick_size` are 64-bit double bit patterns. -/
structure OrderBook where
  ticker_id : Nat
  first_tick : Nat
  tick_size : Nat
  num_ticks : Nat
  side : Nat
  padding : List Nat

/-- A trade record whose fields fit the widths of the C struct fields. -/
@[reducible] def Trade.Valid (t : Trade) : Prop :=
  t.ticker_id < 2 ^ 64 ∧ t.price < 2 ^ 64 ∧ t.quantity < 2 ^ 32 ∧
  t.trade_id < 2 ^ 32 ∧ t.side < 256

/-- An order record whose fields fit the widths of the C struct fields. -/
@[reducible] def Order.Valid (o : Order) : Prop :=
  o.ticker_id < 2 ^ 64 ∧ o.order_id < 2 ^ 32 ∧ o.price < 2 ^ 64 ∧
  o.quantity < 2 ^ 32 ∧ o.type_and_side < 256 ∧
  o.expiry.length = 6 ∧ (∀ b ∈ o.expiry, b < 256)

/-- A ticker record whose fields fit the widths of the C struct fields. -/
@[reducible] def Tick.Valid (t : Tick) : Prop :=
  t.ticker_id < 2 ^ 64 ∧ t.bid_price < 2 ^ 64 ∧ t.ask_price < 2 ^ 64 ∧
  t.bid_volume < 2 ^ 32 ∧ t.ask_volume < 2 ^ 32

/-- An order-book record whose fields fit the widths of the C struct
fields. -/
@[reducible] def OrderBook.Valid (b : OrderBook) : Prop :=
  b.ticker_id < 2 ^ 64 ∧ b.first_tick < 2 ^ 64 ∧ b.tick_size < 2 ^ 64 ∧
  b.num_ticks < 65536 ∧ b.side < 256

/-- `pack_trade_body`: bytes written into the buffer, paired with the
returned length (always 32).  The 7 padding bytes are written by
`memset(ptr, 0, 7)`. -/
def pack_trade_body (trade : Trade) : List Nat × Nat :=
  (be64 trade.ticker_id ++ be64 trade.price ++ be32 trade.quantity ++
     be32 trade.trade_id ++ [trade.side % 256] ++ List.replicate 7 0, 32)

/-- `pack_order_body`: bytes written into the buffer, paired with the
returned length.  Note the final byte is `*ptr = order->padding`, a copy of
the record's padding byte, not a zero. -/
def pack_order_body (order : Order) : List Nat × Nat :=
  (be64 order.ticker_id ++ be32 order.order_id ++ be64 order.price ++
     be32 order.quantity ++ [order.type_and_side % 256] ++
     order.expiry.map (· % 256) ++ [order.padding % 256], 32)

/-- `pack_ticker_body`: bytes written into the buffer, paired with the
returned length. -/
def pack_ticker_body (ticker : Tick) : List Nat × Nat :=
  (be64 ticker.ticker_id ++ be64 ticker.bid_price ++ be64 ticker.ask_price ++
     be32 ticker.bid_volume ++ be32 ticker.ask_volume, 32)

/-- Bytes written by the volume loop of `pack_order_book_body`, starting at
volume index `i` with `n` iterations left: each step writes
`htonl(volumes[i])`. -/
def packVolumes (volumes : List Nat) (i : Nat) : Nat → List Nat
  | 0 => []
  | n + 1 => be32 (volumes.getD i 0) ++ packVolumes volumes (i + 1) n

/-- `pack_order_book_body`: bytes written into the buffer, paired with the
returned length `32 + num_ticks * 4`.  The `uint16_t` field `num_ticks`
bounds the volume loop; the 5 padding bytes are `memset` to zero. -/
def pack_order_book_body (order_book : OrderBook) (volumes : List Nat) :
    List Nat × Nat :=
  (be64 order_book.ticker_id ++ be64 order_book.first_tick ++
     be64 order_book.tick_size ++ be16 order_book.num_ticks ++
     [order_book.side % 256] ++ List.replicate 5 0 ++
     packVolumes volumes 0 (order_book.num_ticks % 65536),
   32 + order_book.num_ticks % 65536 * 4)

/-- `unpack_header`: reads the 8 header bytes back into a record. -/
def unpack_header (b : List Nat) : MitchHeader :=
  { message_type := b.getD 0 0 % 256,
    timestamp := (b.drop 1).take 6,
    count := b.getD 7 0 % 256 }

/-- `unpack_trade_body`: reads bytes 0..31 of the buffer into a trade
record, paired with the returned length. -/
def unpack_trade_body (b : List Nat) : Trade × Nat :=
  ({ ticker_id := rdBytes (b.take 8),
     price := rdBytes ((b.drop 8).take 8),
     quantity := rdBytes ((b.drop 16).take 4),
     trade_id := rdBytes ((b.drop 20).take 4),
     side := b.getD 24 0 % 256,
     padding := (b.drop 25).take 7 }, 32)

/-- `unpack_order_body`: reads bytes 0..31 of the buffer into an order
record, paired with the returned length. -/
def unpack_order_body (b : List Nat) : Order × Nat :=
  ({ ticker_id := rdBytes (b.take 8),
     order_id := rdBytes ((b.drop 8).take 4),
     price := rdBytes ((b.drop 12).take 8),
     quantity := rdBytes ((b.drop 20).take 4),
     type_and_side := b.getD 24 0 % 256,
     expiry := (b.drop 25).take 6,
     padding := b.getD 31 0 % 256 }, 32)

/-- `unpack_ticker_body`: reads bytes 0..31 of the buffer into a ticker
record, paired with the returned length. -/
def unpack_ticker_body (b : List Nat) : Tick × Nat :=
  ({ ticker_id := rdBytes (b.take 8),
     bid_price := rdBytes ((b.drop 8).take 8),
     ask_price := rdBytes ((b.drop 16).take 8),
     bid_volume := rdBytes ((b.drop 24).take 4),
     ask_volume := rdBytes ((b.drop 28).take 4) }, 32)

/-- Values read by the volume loop of `unpack_order_book_body`, starting at
volume index `i` with `n` iterations left: each step reads `ntohl` of the 4
bytes at offset `32 + 4*i`. -/
def unpackVolumes (b : List Nat) (i : Nat) : Nat → List Nat
  | 0 => []
  | n + 1 => rdBytes ((b.drop (32 + 4 * i)).take 4) :: unpackVolumes b (i + 1) n

/-- `unpack_order_book_body`: reads the 32-byte fixed part, takes
`num_ticks` from bytes 24-25, then reads that many 4-byte volumes from the
bytes that follow.  Returns the record, the volumes and the returned length
`32 + num_ticks * 4`.  The function receives only a buffer pointer and
performs no bounds check of any kind. -/
def unpack_order_book_body (b : List Nat) : OrderBook × List Nat × Nat :=
  let nt := rdBytes ((b.drop 24).take 2)
  ({ ticker_id := rdBytes (b.take 8),
     first_tick := rdBytes ((b.drop 8).take 8),
     tick_size := rdBytes ((b.drop 16).take 8),
     num_ticks := nt,
     side := b.getD 26 0 % 256,
     padding := (b.drop 27).take 5 },
   unpackVolumes b 0 nt, 32 + nt * 4)

/-! Arithmetic facts about the big-endian byte codecs. -/

theorem rd_step (x m : Nat) : x / (m * 256) * 256 + x / m % 256 = x / m := by
  have h1 : x / (m * 256) = x / m / 256 := (Nat.div_div_eq_div_mul x m 256).symm
  rw [h1]
  omega

theorem rdBytes_be64 (v : Nat) (h : v < 2 ^ 64) : rdBytes (be64 v) = v := by
  simp only [rdBytes, be64, List.foldl_cons, List.foldl_nil,
    Nat.mod_mod_of_dvd _ (dvd_refl 256), Nat.zero_mul, Nat.zero_add]
  have h64 : v < 18446744073709551616 := by
    have : (2 : Nat) ^ 64 = 18446744073709551616 := by norm_num
    omega
  have h0 : v / 72057594037927936 % 256 = v / 72057594037927936 :=
    Nat.mod_eq_of_lt (Nat.div_lt_of_lt_mul (by omega))
  rw [h0]
  rw [show (72057594037927936 : Nat) = 281474976710656 * 256 from rfl, rd_step]
  rw [show (281474976710656 : Nat) = 1099511627776 * 256 from rfl, rd_step]
  rw [show (1099511627776 : Nat) = 4294967296 * 256 from rfl, rd_step]
  rw [show (4294967296 : Nat) = 16777216 * 256 from rfl, rd_step]
  rw [show (16777216 : Nat) = 65536 * 256 from rfl, rd_step]
  rw [show (65536 : Nat) = 256 * 256 from rfl, rd_step]
  omega

theorem rdBytes_be32 (v : Nat) (h : v < 2 ^ 32) : rdBytes (be32 v) = v := by
  simp only [rdBytes, be32, List.foldl_cons, List.foldl_nil,
    Nat.mod_mod_of_dvd _ (dvd_refl 256), Nat.zero_mul, Nat.zero_add]
  have h32 : v < 4294967296 := by
    have : (2 : Nat) ^ 32 = 4294967296 := by norm_num
    omega
  have h0 : v / 16777216 % 256 = v / 16777216 :=
    Nat.mod_eq_of_lt (Nat.div_lt_of_lt_mul (by omega))
  rw [h0]
  rw [show (16777216 : Nat) = 65536 * 256 from rfl, rd_step]
  rw [show (65536 : Nat) = 256 * 256 from rfl, rd_step]
  omega

theorem rdBytes_be16 (v : Nat) (h : v < 65536) : rdBytes (be16 v) = v := by
  simp only [rdBytes, be16, List.foldl_cons, List.foldl_nil,
    Nat.mod_mod_of_dvd _ (dvd_refl 256), Nat.zero_mul, Nat.zero_add]
  have h0 : v / 256 % 256 = v / 256 :=
    Nat.mod_eq_of_lt (Nat.div_lt_of_lt_mul (by omega))
  rw [h0]
  omega

theorem map_mod256_eq (l : List Nat) (h : ∀ b ∈ l, b < 256) :
    l.map (· % 256) = l := by
  induction l with
  | nil => rfl
  | cons a t ih =>
    simp only [List.map_cons, List.cons.injEq]
    exact ⟨Nat.mod_eq_of_lt (h a (List.mem_cons_self a t)),
      ih (fun b hb => h b (List.mem_cons_of_mem a hb))⟩

theorem trade_roundtrip (t : Trade) (h : t.Valid) :
    (unpack_trade_body (pack_trade_body t).1).1.ticker_id = t.ticker_id ∧
    (unpack_trade_body (pack_trade_body t).1).1.price = t.price ∧
    (unpack_trade_body (pack_trade_body t).1).1.quantity = t.quantity ∧
    (unpack_trade_body (pack_trade_body t).1).1.trade_id = t.trade_id ∧
    (unpack_trade_body (pack_trade_body t).1).1.side = t.side := by
  obtain ⟨h1, h2, h3, h4, h5⟩ := h
  refine ⟨?_, ?_, ?_, ?_, ?_⟩
  · exact rdBytes_be64 _ h1
  · exact rdBytes_be64 _ h2
  · exact rdBytes_be32 _ h3
  · exact rdBytes_be32 _ h4
  · show t.side % 256 % 256 = t.side
    omega

theorem order_roundtrip (o : Order) (h : o.Valid) :
    (unpack_order_body (pack_order_body o).1).1.ticker_id = o.ticker_id ∧
    (unpack_order_body (pack_order_body o).1).1.order_id = o.order_id ∧
    (unpack_order_body (pack_order_body o).1).1.price = o.price ∧
    (unpack_order_body (pack_order_body o).1).1.quantity = o.quantity ∧
    (unpack_order_body (pack_order_body o).1).1.type_and_side = o.type_and_side ∧
    (unpack_order_body (pack_order_body o).1).1.expiry = o.expiry := by
  obtain ⟨h1, h2, h3, h4, h5, h6, h7⟩ := h
  refine ⟨?_, ?_, ?_, ?_, ?_, ?_⟩
  · exact rdBytes_be64 _ h1
  · exact rdBytes_be32 _ h2
  · exact rdBytes_be64 _ h3
  · exact rdBytes_be32 _ h4
  · show o.type_and_side % 256 % 256 = o.type_and_side
    omega
  · show ((o.expiry.map (· % 256)) ++ [o.padding % 256]).take 6 = o.expiry
    rw [List.take_left' (by simp [h6])]
    exact map_mod256_eq o.expiry h7

theorem tick_roundtrip (k : Tick) (h : k.Valid) :
    (unpack_ticker_body (pack_ticker_body k).1).1.ticker_id = k.ticker_id ∧
    (unpack_ticker_body (pack_ticker_body k).1).1.bid_price = k.bid_price ∧
    (unpack_ticker_body (pack_ticker_body k).1).1.ask_price = k.ask_price ∧
    (unpack_ticker_body (pack_ticker_body k).1).1.bid_volume = k.bid_volume ∧
    (unpack_ticker_body (pack_ticker_body k).1).1.ask_volume = k.ask_volume := by
  obtain ⟨h1, h2, h3, h4, h5⟩ := h
  exact ⟨rdBytes_be64 _ h1, rdBytes_be64 _ h2, rdBytes_be64 _ h3,
    rdBytes_be32 _ h4, rdBytes_be32 _ h5⟩

/-- C4: for every valid Trade, Order and Tick record, decoding the 32 bytes
produced by the matching encoder restores every non-reserved field exactly;
in particular each double travels as its exact 8-byte bit pattern (the
`price` fields below are bit patterns, so NaN and infinity patterns are
covered by the universal statement), with no rounding or coercion. -/
theorem fixed_body_roundtrip :
    (∀ t : Trade, t.Valid →
      (unpack_trade_body (pack_trade_body t).1).1.ticker_id = t.ticker_id ∧
      (unpack_trade_body (pack_trade_body t).1).1.price = t.price ∧
      (unpack_trade_body (pack_trade_body t).1).1.quantity = t.quantity ∧
      (unpack_trade_body (pack_trade_body t).1).1.trade_id = t.trade_id ∧
      (unpack_trade_body (pack_trade_body t).1).1.side = t.side) ∧
    (∀ o : Order, o.Valid →
      (unpack_order_body (pack_order_body o).1).1.ticker_id = o.ticker_id ∧
      (unpack_order_body (pack_order_body o).1).1.order_id = o.order_id ∧
      (unpack_order_body (pack_order_body o).1).1.price = o.price ∧
      (unpack_order_body (pack_order_body o).1).1.quantity = o.quantity ∧
      (unpack_order_body (pack_order_body o).1).1.type_and_side = o.type_and_side ∧
      (unpack_order_body (pack_order_body o).1).1.expiry = o.expiry) ∧
    (∀ k : Tick, k.Valid →
      (unpack_ticker_body (pack_ticker_body k).1).1.ticker_id = k.ticker_id ∧
      (unpack_ticker_body (pack_ticker_body k).1).1.bid_price = k.bid_price ∧
      (unpack_ticker_body (pack_ticker_body k).1).1.ask_price = k.ask_price ∧
      (unpack_ticker_body (pack_ticker_body k).1).1.bid_volume = k.bid_volume ∧
      (unpack_ticker_body (pack_ticker_body k).1).1.ask_volume = k.ask_volume) :=
  ⟨trade_roundtrip, order_roundtrip, tick_roundtrip⟩

/-- A concrete trade whose price field is the quiet-NaN bit pattern
0x7FF8000000000000. -/
def tradeEx : Trade :=
  { ticker_id := 0x00006F001CD00000, price := 0x7FF8000000000000,
    quantity := 1000000, trade_id := 12345, side := 0, padding := [] }

/-- A concrete order with a nonzero padding byte. -/
def orderEx : Order :=
  { ticker_id := 3, order_id := 77, price := 0x3FF199999999999A,
    quantity := 42, type_and_side := 3, expiry := [1, 2, 3, 4, 5, 6],
    padding := 5 }

/-- A concrete ticker whose bid price is the positive-infinity bit pattern
0x7FF0000000000000. -/
def tickEx : Tick :=
  { ticker_id := 9, bid_price := 0x7FF0000000000000,
    ask_price := 0x0000000000000001, bid_volume := 4294967295,
    ask_volume := 0 }

/-- Witness for C4 at concrete records, including NaN and infinity double
bit patterns. -/
theorem fixed_body_roundtrip_witness :
    (unpack_trade_body (pack_trade_body tradeEx).1).1.price = 0x7FF8000000000000 ∧
    (unpack_ticker_body (pack_ticker_body tickEx).1).1.bid_price = 0x7FF0000000000000 ∧
    (unpack_order_body (pack_order_body orderEx).1).1.expiry = [1, 2, 3, 4, 5, 6] :=
  ⟨(fixed_body_roundtrip.1 tradeEx (by decide)).2.1,
   (fixed_body_roundtrip.2.2 tickEx (by decide)).2.1,
   (fixed_body_roundtrip.2.1 orderEx (by decide)).2.2.2.2.2⟩

/-! Lemmas about the order-book volume loops. -/

theorem packVolumes_take4 (v : List Nat) (i n : Nat) :
    (packVolumes v i (n + 1)).take 4 = be32 (v.getD i 0) := rfl

theorem packVolumes_drop4 (v : List Nat) (i n : Nat) :
    (packVolumes v i (n + 1)).drop 4 = packVolumes v (i + 1) n := rfl

theorem packVolumes_drop (v : List Nat) :
    ∀ k n i, k ≤ n → (packVolumes v i n).drop (4 * k) = packVolumes v (i + k) (n - k) := by
  intro k
  induction k with
  | zero => intro n i _; simp
  | succ m ih =>
    intro n i hk
    cases n with
    | zero => omega
    | succ p =>
      have h4 : 4 * (m + 1) = 4 + 4 * m := by omega
      rw [h4, ← List.drop_drop, packVolumes_drop4, ih p (i + 1) (by omega)]
      have hii : i + 1 + m = i + (m + 1) := by omega
      have hnn : p - m = p + 1 - (m + 1) := by omega
      rw [hii, hnn]

theorem unpackVolumes_length (b : List Nat) :
    ∀ n i, (unpackVolumes b i n).length = n := by
  intro n
  induction n with
  | zero => intro i; rfl
  | succ m ih => intro i; simp [unpackVolumes, ih]

theorem unpackVolumes_packVolumes (B v : List Nat) (nt : Nat)
    (hB : B.drop 32 = packVolumes v 0 nt) (hlen : v.length = nt)
    (hv : ∀ x ∈ v, x < 2 ^ 32) :
    unpackVolumes B 0 nt = v := by
  have key : ∀ n i, i + n = nt → unpackVolumes B i n = v.drop i := by
    intro n
    induction n with
    | zero =>
      intro i hi
      have : v.length ≤ i := by omega
      simp [unpackVolumes, List.drop_eq_nil_iff.mpr this]
    | succ m ih =>
      intro i hi
      have hiv : i < v.length := by omega
      have hdropB : B.drop (32 + 4 * i) = packVolumes v i (nt - i) := by
        have h1 : (B.drop 32).drop (4 * i) = B.drop (32 + 4 * i) := List.drop_drop _ _ _
        rw [← h1, hB, packVolumes_drop v i nt 0 (by omega), Nat.zero_add]
      have hnt : nt - i = (nt - i - 1) + 1 := by omega
      show rdBytes ((B.drop (32 + 4 * i)).take 4) :: unpackVolumes B (i + 1) m = v.drop i
      rw [hdropB, hnt, packVolumes_take4]
      have hget : v.getD i 0 = v.get ⟨i, hiv⟩ := List.getD_eq_getElem v 0 hiv
      have hmem : v.get ⟨i, hiv⟩ ∈ v := v.get_mem i hiv
      rw [hget, rdBytes_be32 _ (hv _ hmem), ih (i + 1) (by omega)]
      exact (List.drop_eq_getElem_cons hiv).symm
  have := key nt 0 (by omega)
  simpa using this

/-- C3: for every valid OrderBook record and matching volumes array,
decoding the bytes produced by `pack_order_book_body` restores every
non-reserved field and the volumes array, and pack and unpack both report
the total length `32 + 4 * num_ticks`. -/
theorem order_book_roundtrip (b : OrderBook) (v : List Nat) (hb : b.Valid)
    (hlen : v.length = b.num_ticks) (hv : ∀ x ∈ v, x < 2 ^ 32) :
    (unpack_order_book_body (pack_order_book_body b v).1).1.ticker_id = b.ticker_id ∧
    (unpack_order_book_body (pack_order_book_body b v).1).1.first_tick = b.first_tick ∧
    (unpack_order_book_body (pack_order_book_body b v).1).1.tick_size = b.tick_size ∧
    (unpack_order_book_body (pack_order_book_body b v).1).1.num_ticks = b.num_ticks ∧
    (unpack_order_book_body (pack_order_book_body b v).1).1.side = b.side ∧
    (unpack_order_book_body (pack_order_book_body b v).1).2.1 = v ∧
    (pack_order_book_body b v).2 = 32 + 4 * b.num_ticks ∧
    (unpack_order_book_body (pack_order_book_body b v).1).2.2 = 32 + 4 * b.num_ticks := by
  obtain ⟨h1, h2, h3, h4, h5⟩ := hb
  have hmod : b.num_ticks % 65536 = b.num_ticks := Nat.mod_eq_of_lt h4
  have hnt : rdBytes (((pack_order_book_body b v).1.drop 24).take 2) = b.num_ticks := by
    show rdBytes (be16 b.num_ticks) = b.num_ticks
    exact rdBytes_be16 _ h4
  refine ⟨rdBytes_be64 _ h1, rdBytes_be64 _ h2, rdBytes_be64 _ h3, hnt, ?_, ?_, ?_, ?_⟩
  · show b.side % 256 % 256 = b.side
    omega
  · show unpackVolumes (pack_order_book_body b v).1 0
      (rdBytes (((pack_order_book_body b v).1.drop 24).take 2)) = v
    rw [hnt]
    refine unpackVolumes_packVolumes _ v b.num_ticks ?_ hlen hv
    show packVolumes v 0 (b.num_ticks % 65536) = packVolumes v 0 b.num_ticks
    rw [hmod]
  · show 32 + b.num_ticks % 65536 * 4 = 32 + 4 * b.num_ticks
    omega
  · show 32 + rdBytes (((pack_order_book_body b v).1.drop 24).take 2) * 4 =
      32 + 4 * b.num_ticks
    rw [hnt]; omega

/-- A concrete valid order book with two ticks. -/
def orderBookEx : OrderBook :=
  { ticker_id := 0x00006F001CD00000, first_tick := 0x3FF0000000000000,
    tick_size := 0x3F847AE147AE147B, num_ticks := 2, side := 1, padding := [] }

/-- Witness for C3 at a concrete order book with two volume entries. -/
theorem order_book_roundtrip_witness :
    (unpack_order_book_body (pack_order_book_body orderBookEx [7, 4294967295]).1).2.1 =
      [7, 4294967295] ∧
    (pack_order_book_body orderBookEx [7, 4294967295]).2 = 40 :=
  ⟨(order_book_roundtrip orderBookEx [7, 4294967295] (by decide) (by decide)
      (by decide)).2.2.2.2.2.1,
   (order_book_roundtrip orderBookEx [7, 4294967295] (by decide) (by decide)
      (by decide)).2.2.2.2.2.2.1⟩

/-- C8 counterexample: the claim says every body encoder writes zero into
all reserved/padding byte positions regardless of the record's padding
fields, but `pack_order_body` ends with `*ptr = order->padding`: on a
record whose padding byte is 5, output byte 31 is 5, not 0. -/
theorem pack_order_body_padding_cex :
    (pack_order_body orderEx).1.getD 31 0 ≠ 0 := by decide

/-- C8 amended: `pack_trade_body` zeroes its 7 padding bytes (25..31) and
`pack_order_book_body` zeroes its 5 padding bytes (27..31), but
`pack_order_body` copies the record's own padding byte into byte 31, so
that byte is zero only when the record's padding field is. -/
theorem pack_padding_bytes :
    (∀ t : Trade, (pack_trade_body t).1.drop 25 = List.replicate 7 0) ∧
    (∀ (b : OrderBook) (v : List Nat),
      ((pack_order_book_body b v).1.drop 27).take 5 = List.replicate 5 0) ∧
    (∀ o : Order, o.expiry.length = 6 →
      (pack_order_body o).1.getD 31 0 = o.padding % 256) := by
  refine ⟨fun t => rfl, fun b v => rfl, fun o h6 => ?_⟩
  show ((o.expiry.map (· % 256)) ++ [o.padding % 256]).getD 6 0 = o.padding % 256
  rw [List.getD_append_right _ _ _ _ (by simp [h6])]
  simp [h6]

/-- Witness for C8 amended at a concrete order with padding byte 5. -/
theorem pack_padding_bytes_witness :
    (pack_order_body orderEx).1.getD 31 0 = 5 :=
  pack_padding_bytes.2.2 orderEx (by decide)

/-- A 32-byte order-book input whose embedded `num_ticks` field (bytes
24-25) holds 1, so the self-described length 32 + 4*1 = 36 exceeds the 32
bytes actually supplied. -/
def shortOrderBookInput : List Nat :=
  List.replicate 24 0 ++ [0, 1] ++ List.replicate 6 0

/-- C1 counterexample: on a 32-byte input announcing `num_ticks = 1`
(required length 36), `unpack_order_book_body` does not report any error:
it returns the success length 36 and a 1-entry volumes array even though
zero volume bytes are present, reading past the supplied input. -/
theorem unpack_order_book_short_input_cex :
    shortOrderBookInput.length = 32 ∧
    (unpack_order_book_body shortOrderBookInput).2.2 = 36 ∧
    (unpack_order_book_body shortOrderBookInput).2.1.length = 1 ∧
    shortOrderBookInput.length < (unpack_order_book_body shortOrderBookInput).2.2 := by
  decide

/-- C1 amended: `unpack_order_book_body` receives only a raw buffer and
performs no length validation at all: for every input it returns the
length `32 + 4 * num_ticks` taken from bytes 24-25 and a volumes array of
exactly `num_ticks` entries, even when the input is shorter than that; the
in-repo guard against short data lives in the caller `mitch_recv_message`,
which rejects the message before the volume bytes are read. -/
theorem unpack_order_book_no_length_check (b : List Nat) :
    (unpack_order_book_body b).2.2 = 32 + 4 * rdBytes ((b.drop 24).take 2) ∧
    (unpack_order_book_body b).2.1.length = rdBytes ((b.drop 24).take 2) := by
  constructor
  · show 32 + rdBytes ((b.drop 24).take 2) * 4 = 32 + 4 * rdBytes ((b.drop 24).take 2)
    omega
  · exact unpackVolumes_length b _ 0

/-!
Stream model for the framing layer.  A TCP stream source is modelled as
the list of byte runs the kernel will hand out: each `recv` call returns
at most the requested count from the front run (a longer run stays
buffered); an empty run models `recv` returning `<= 0` (error / closed
connection).  The caller's buffer is a byte memory `Nat → Nat`, since the
C functions write through a raw pointer with no intrinsic bound.
-/

/-- A stream source: the successive byte runs the kernel delivers. -/
abbrev Chunks : Type := List (List Nat)

/-- All bytes a stream will deliver, in order. -/
def streamBytes : Chunks → List Nat
  | [] => []
  | c :: r => c ++ streamBytes r

/-- A stream none of whose runs is empty: every `recv` the code performs
delivers at least one byte (no error / close happens). -/
def goodStream (s : Chunks) : Prop := ¬ ([] ∈ s)

instance (s : Chunks) : Decidable (goodStream s) :=
  inferInstanceAs (Decidable (¬ ([] ∈ s)))

/-- `mitch_recv_tcp`: loops on `recv` until exactly `req` bytes are
obtained, returning them and the rest of the stream, or `none` when a
`recv` returns `<= 0` first (the C function returns -1 there). -/
def mitch_recv_tcp (s : Chunks) (req : Nat) : Option (List Nat × Chunks) :=
  match req, s with
  | 0, s => some ([], s)
  | _ + 1, [] => none
  | n + 1, c :: rest =>
    match c with
    | [] => none
    | b :: cs =>
      let got := (b :: cs).take (n + 1)
      let s' : Chunks :=
        if n + 1 < (b :: cs).length then (b :: cs).drop (n + 1) :: rest else rest
      match mitch_recv_tcp s' (n + 1 - got.length) with
      | none => none
      | some (more, s'') => some (got ++ more, s'')
termination_by req
decreasing_by
  simp only [got, List.length_take, List.length_cons]
  omega

/-- Byte stores through the caller's buffer pointer: each stored value is
a `uint8_t`, hence reduced `% 256`. -/
def writeBytes (mem : Nat → Nat) (off : Nat) : List Nat → (Nat → Nat)
  | [] => mem
  | b :: bs => writeBytes (fun i => if i = off then b % 256 else mem i) (off + 1) bs

/-- Outcome of `mitch_recv_message`: the C return value, the caller's
buffer memory after the call, and the unconsumed remainder of the
stream. -/
structure RecvOut where
  ret : Int
  mem : Nat → Nat
  rest : Chunks

/-- Value of the `uint16_t` assembled by `memcpy` of two buffer bytes
followed by `ntohs`. -/
def readU16be (hi lo : Nat) : Nat := hi % 256 * 256 + lo % 256

/-- The `size_t` expression `volumes_size = (size_t)num_ticks * 4` of
`mitch_recv_message`. -/
def ob_volumes_size (num_ticks : Nat) : Nat := num_ticks * 4 % U64

/-- The `size_t` expression `body_size = 32 + volumes_size` of
`mitch_recv_message`. -/
def ob_body_size (num_ticks : Nat) : Nat := (32 + ob_volumes_size num_ticks) % U64

/-- `mitch_recv_message`: reads the 8-byte header, dispatches on the type
tag, validates `count == 1` for order books, computes the body length,
checks it against the caller's buffer size, and reads the body.  Return
codes mirror the C ints: -1 transport failure, -2 buffer too small, -3
protocol violation, otherwise the total message length. -/
def mitch_recv_message (s : Chunks) (mem : Nat → Nat) (buffer_size : Nat) : RecvOut :=
  match mitch_recv_tcp s 8 with
  | none => ⟨-1, mem, s⟩
  | some (hdr, s1) =>
    let mem1 := writeBytes mem 0 hdr
    let header := unpack_header hdr
    if header.message_type = MITCH_MSG_TYPE_ORDER_BOOK then
      if header.count ≠ 1 then ⟨-3, mem1, s1⟩
      else
        match mitch_recv_tcp s1 32 with
        | none => ⟨-1, mem1, s1⟩
        | some (pre, s2) =>
          let mem2 := writeBytes mem1 8 pre
          let num_ticks := readU16be (mem2 (8 + 24)) (mem2 (8 + 25))
          let volumes_size := ob_volumes_size num_ticks
          let body_size := ob_body_size num_ticks
          if (8 + body_size) % U64 > buffer_size then ⟨-2, mem2, s2⟩
          else if volumes_size > 0 then
            match mitch_recv_tcp s2 volumes_size with
            | none => ⟨-1, mem2, s2⟩
            | some (vols, s3) =>
              ⟨Int.ofNat (8 + body_size), writeBytes mem2 (8 + 32) vols, s3⟩
          else ⟨Int.ofNat (8 + body_size), mem2, s2⟩
    else
      let body_size := header.count * 32 % U64
      if (8 + body_size) % U64 > buffer_size then ⟨-2, mem1, s1⟩
      else if body_size > 0 then
        match mitch_recv_tcp s1 body_size with
        | none => ⟨-1, mem1, s1⟩
        | some (body, s2) => ⟨Int.ofNat (8 + body_size), writeBytes mem1 8 body, s2⟩
      else ⟨Int.ofNat (8 + body_size), mem1, s1⟩

/-! List bookkeeping lemmas for the framing proofs. -/

theorem take_append_le {α : Type} (l₁ l₂ : List α) (n : Nat) (h : n ≤ l₁.length) :
    (l₁ ++ l₂).take n = l₁.take n := by
  induction l₁ generalizing n with
  | nil => simp at h; simp [h]
  | cons a t ih =>
    cases n with
    | zero => simp
    | succ m => simp [ih m (by simpa using h)]

theorem take_append_ge {α : Type} (l₁ l₂ : List α) (n : Nat) (h : l₁.length ≤ n) :
    (l₁ ++ l₂).take n = l₁ ++ l₂.take (n - l₁.length) := by
  induction l₁ generalizing n with
  | nil => simp
  | cons a t ih =>
    cases n with
    | zero => simp at h
    | succ m => simp [ih m (by simpa using h), Nat.succ_sub_succ]

theorem drop_append_le {α : Type} (l₁ l₂ : List α) (n : Nat) (h : n ≤ l₁.length) :
    (l₁ ++ l₂).drop n = l₁.drop n ++ l₂ := by
  induction l₁ generalizing n with
  | nil => simp at h; simp [h]
  | cons a t ih =>
    cases n with
    | zero => simp
    | succ m => simp [ih m (by simpa using h)]

theorem drop_append_ge {α : Type} (l₁ l₂ : List α) (n : Nat) (h : l₁.length ≤ n) :
    (l₁ ++ l₂).drop n = l₂.drop (n - l₁.length) := by
  induction l₁ generalizing n with
  | nil => simp
  | cons a t ih =>
    cases n with
    | zero => simp at h
    | succ m => simp [ih m (by simpa using h), Nat.succ_sub_succ]

theorem getD_take {α : Type} (l : List α) (d : α) :
    ∀ n i, i < n → (l.take n).getD i d = l.getD i d := by
  induction l with
  | nil => simp
  | cons a t ih =>
    intro n i hin
    cases n with
    | zero => omega
    | succ m =>
      cases i with
      | zero => simp
      | succ j => simpa using ih m j (by omega)

theorem getD_drop {α : Type} (l : List α) (d : α) :
    ∀ n i, (l.drop n).getD i d = l.getD (n + i) d := by
  induction l with
  | nil => simp
  | cons a t ih =>
    intro n i
    cases n with
    | zero => simp
    | succ m =>
      have h1 : m + 1 + i = (m + i) + 1 := by omega
      rw [h1]
      simp only [List.drop_succ_cons, List.getD_cons_succ]
      exact ih m i

/-- Pointwise description of `writeBytes`: positions in the written window
hold the stored bytes, every other position is untouched. -/
theorem writeBytes_apply (bs : List Nat) :
    ∀ (mem : Nat → Nat) (off i : Nat),
      writeBytes mem off bs i =
        if off ≤ i ∧ i < off + bs.length then bs.getD (i - off) 0 % 256 else mem i := by
  induction bs with
  | nil =>
    intro mem off i
    have hno : ¬ (off ≤ i ∧ i < off + ([] : List Nat).length) := by simp
    rw [if_neg hno]
    rfl
  | cons b t ih =>
    intro mem off i
    show writeBytes (fun j => if j = off then b % 256 else mem j) (off + 1) t i = _
    rw [ih]
    by_cases h1 : off + 1 ≤ i ∧ i < off + 1 + t.length
    · rw [if_pos h1, if_pos (by simp; omega)]
      have : i - off = (i - (off + 1)) + 1 := by omega
      simp [this]
    · rw [if_neg h1]
      by_cases h2 : i = off
      · rw [if_pos, if_pos (by simp; omega)]
        · simp [h2]
        · exact h2
      · rw [if_neg h2, if_neg (by simp at h1 ⊢; omega)]

theorem recv_tcp_complete :
    ∀ (req : Nat) (s : Chunks), goodStream s → req ≤ (streamBytes s).length →
    ∃ s', mitch_recv_tcp s req = some ((streamBytes s).take req, s') ∧
      goodStream s' ∧ streamBytes s' = (streamBytes s).drop req := by
  intro req
  induction req using Nat.strong_induction_on with
  | _ req ih =>
    intro s hs hlen
    cases req with
    | zero => exact ⟨s, by simp [mitch_recv_tcp], hs, by simp⟩
    | succ n =>
      cases s with
      | nil => simp [streamBytes] at hlen
      | cons c rest =>
        have hrest : goodStream rest := fun h => hs (List.mem_cons_of_mem _ h)
        cases c with
        | nil => exact absurd (List.mem_cons_self _ _) hs
        | cons b cs =>
          have hL : (b :: cs).length = cs.length + 1 := by simp
          have hsb : streamBytes ((b :: cs) :: rest) = (b :: cs) ++ streamBytes rest := rfl
          have hlen' : n + 1 ≤ (b :: cs).length + (streamBytes rest).length := by
            rw [hsb] at hlen; simp only [List.length_append] at hlen; omega
          by_cases hlt : n + 1 < (b :: cs).length
          · have hgotlen : ((b :: cs).take (n + 1)).length = n + 1 := by
              simp [List.length_take]; omega
            refine ⟨(b :: cs).drop (n + 1) :: rest, ?_, ?_, ?_⟩
            · simp only [mitch_recv_tcp, hlt, if_pos, hgotlen, Nat.sub_self]
              simp only [mitch_recv_tcp, List.append_nil]
              rw [hsb, take_append_le _ _ _ (le_of_lt hlt)]
            · intro hmem
              rcases List.mem_cons.mp hmem with h | h
              · have : (b :: cs).length ≤ n + 1 := List.drop_eq_nil_iff.mp h.symm
                omega
              · exact hrest h
            · show (b :: cs).drop (n + 1) ++ streamBytes rest = _
              rw [hsb, drop_append_le _ _ _ (le_of_lt hlt)]
          · have hcle : (b :: cs).length ≤ n + 1 := by omega
            have hgot : (b :: cs).take (n + 1) = b :: cs := List.take_of_length_le hcle
            obtain ⟨s'', heq, hgs, hsb'⟩ :=
              ih (n + 1 - (b :: cs).length) (by omega) rest hrest (by omega)
            refine ⟨s'', ?_, hgs, ?_⟩
            · simp only [mitch_recv_tcp]
              rw [if_neg hlt, show ((b :: cs).take (n + 1)).length = (b :: cs).length
                from by rw [hgot], heq]
              rw [hsb, take_append_ge _ _ _ hcle, hgot]
            · rw [hsb', hsb, drop_append_ge _ _ _ hcle]

/-- C5: for every stream whose next message header carries the order-book
tag q with a count field different from 1, `mitch_recv_message` returns
the ProtocolViolation code -3 having consumed exactly the 8 header bytes
of the stream and written nothing beyond the 8 header bytes of the
buffer. -/
theorem recv_orderbook_bad_count (s : Chunks) (mem : Nat → Nat) (buffer_size : Nat)
    (hgs : goodStream s) (hlen : 8 ≤ (streamBytes s).length)
    (htag : (streamBytes s).getD 0 0 % 256 = MITCH_MSG_TYPE_ORDER_BOOK)
    (hcnt : (streamBytes s).getD 7 0 % 256 ≠ 1) :
    (mitch_recv_message s mem buffer_size).ret = -3 ∧
    streamBytes (mitch_recv_message s mem buffer_size).rest = (streamBytes s).drop 8 ∧
    (∀ i, 8 ≤ i → (mitch_recv_message s mem buffer_size).mem i = mem i) := by
  obtain ⟨s1, heq, hgs1, hsb1⟩ := recv_tcp_complete 8 s hgs hlen
  have hmt : (unpack_header ((streamBytes s).take 8)).message_type =
      MITCH_MSG_TYPE_ORDER_BOOK := by
    show ((streamBytes s).take 8).getD 0 0 % 256 = _
    rw [getD_take _ _ 8 0 (by omega)]
    exact htag
  have hct : ¬ (unpack_header ((streamBytes s).take 8)).count = 1 := by
    show ¬ ((streamBytes s).take 8).getD 7 0 % 256 = 1
    rw [getD_take _ _ 8 7 (by omega)]
    exact hcnt
  have hred : mitch_recv_message s mem buffer_size =
      ⟨-3, writeBytes mem 0 ((streamBytes s).take 8), s1⟩ := by
    simp only [mitch_recv_message, heq, hmt, hct]
    simp
    exact fun h => absurd h hct
  refine ⟨by rw [hred], by rw [hred]; exact hsb1, ?_⟩
  intro i hi
  rw [hred]
  show writeBytes mem 0 ((streamBytes s).take 8) i = mem i
  rw [writeBytes_apply]
  rw [if_neg]
  intro hcontra
  have : ((streamBytes s).take 8).length ≤ 8 := by simp [List.length_take]
  omega

/-- Witness for C5: a single-chunk stream carrying a q header with count 2
is rejected with -3, the stream is fully positioned after the header, and
the buffer beyond the header is untouched. -/
theorem recv_orderbook_bad_count_witness :
    (mitch_recv_message [[113, 0, 0, 0, 0, 0, 0, 2]] (fun _ => 0) 100).ret = -3 ∧
    streamBytes (mitch_recv_message [[113, 0, 0, 0, 0, 0, 0, 2]] (fun _ => 0) 100).rest = [] ∧
    (mitch_recv_message [[113, 0, 0, 0, 0, 0, 0, 2]] (fun _ => 0) 100).mem 12 = 0 := by
  have h := recv_orderbook_bad_count [[113, 0, 0, 0, 0, 0, 0, 2]] (fun _ => 0) 100
    (by decide) (by decide) (by decide) (by decide)
  exact ⟨h.1, h.2.1.trans rfl, (h.2.2 12 (by omega)).trans rfl⟩

theorem readU16be_lt (hi lo : Nat) : readU16be hi lo < 65536 := by
  unfold readU16be
  omega

theorem fixed_body_arith (c : Nat) (h : c < 256) :
    c * 32 % U64 = c * 32 ∧ (8 + c * 32) % U64 = 8 + c * 32 := by
  have h64 : (2 : Nat) ^ 64 = 18446744073709551616 := by norm_num
  unfold U64
  constructor <;> (apply Nat.mod_eq_of_lt; omega)

theorem ob_body_size_eq (nt : Nat) (h : nt < 65536) :
    ob_body_size nt = 32 + nt * 4 := by
  have h64 : (2 : Nat) ^ 64 = 18446744073709551616 := by norm_num
  unfold ob_body_size ob_volumes_size U64
  rw [Nat.mod_eq_of_lt (by omega), Nat.mod_eq_of_lt (by omega)]

/-- C2: the reader's body-length computation in `mitch_recv_message`
(`ob_body_size`, the `size_t` expression `32 + (size_t)num_ticks * 4`) and
the length returned by `pack_order_book_body` evaluate `32 + 4*num_ticks`
exactly for every num_ticks below 2^16 — 262172 at 65535 — with no
wraparound, and the `size_t` comparison of `8 + body_len` against the
caller's buffer size is a comparison of the exact value. -/
theorem ob_length_arithmetic (nt : Nat) (h : nt < 65536) :
    ob_body_size nt = 32 + 4 * nt ∧
    ob_body_size 65535 = 262172 ∧
    (∀ (b : OrderBook) (v : List Nat), b.num_ticks = nt →
      (pack_order_book_body b v).2 = 32 + 4 * nt) ∧
    (∀ buffer_size : Nat,
      (8 + ob_body_size nt) % U64 > buffer_size ↔ 8 + (32 + 4 * nt) > buffer_size) := by
  have h64 : (2 : Nat) ^ 64 = 18446744073709551616 := by norm_num
  have he : ob_body_size nt = 32 + nt * 4 := ob_body_size_eq nt h
  refine ⟨by omega, by rw [ob_body_size_eq 65535 (by omega)], ?_, ?_⟩
  · intro b v hb
    show 32 + b.num_ticks % 65536 * 4 = 32 + 4 * nt
    rw [hb, Nat.mod_eq_of_lt h]
    omega
  · intro buffer_size
    rw [he, Nat.mod_eq_of_lt (by unfold U64; omega)]
    omega

/-- Witness for C2 at the extreme num_ticks value 65535. -/
theorem ob_length_arithmetic_witness :
    ob_body_size 65535 = 262172 ∧
    ((8 + ob_body_size 65535) % U64 > 262179 ↔ 8 + (32 + 4 * 65535) > 262179) := by
  have h := ob_length_arithmetic 65535 (by omega)
  exact ⟨h.2.1, h.2.2.2 262179⟩

/-- C6: for every fixed-type (non-order-book) incoming message whose total
size `8 + 32*count` exceeds the caller's buffer size, `mitch_recv_message`
returns the BufferTooSmall code -2 and writes nothing into the caller's
buffer beyond the 8 header bytes. -/
theorem recv_fixed_buffer_too_small (s : Chunks) (mem : Nat → Nat) (buffer_size : Nat)
    (hgs : goodStream s) (hlen : 8 ≤ (streamBytes s).length)
    (htag : (streamBytes s).getD 0 0 % 256 ≠ MITCH_MSG_TYPE_ORDER_BOOK)
    (hsize : buffer_size < 8 + ((streamBytes s).getD 7 0 % 256) * 32) :
    (mitch_recv_message s mem buffer_size).ret = -2 ∧
    streamBytes (mitch_recv_message s mem buffer_size).rest = (streamBytes s).drop 8 ∧
    (∀ i, 8 ≤ i → (mitch_recv_message s mem buffer_size).mem i = mem i) := by
  obtain ⟨s1, heq, hgs1, hsb1⟩ := recv_tcp_complete 8 s hgs hlen
  have hmt : ¬ (unpack_header ((streamBytes s).take 8)).message_type =
      MITCH_MSG_TYPE_ORDER_BOOK := by
    show ¬ ((streamBytes s).take 8).getD 0 0 % 256 = _
    rw [getD_take _ _ 8 0 (by omega)]
    exact htag
  have hcn : (unpack_header ((streamBytes s).take 8)).count =
      (streamBytes s).getD 7 0 % 256 := by
    show ((streamBytes s).take 8).getD 7 0 % 256 = _
    rw [getD_take _ _ 8 7 (by omega)]
  have hc256 : (unpack_header ((streamBytes s).take 8)).count < 256 := by
    rw [hcn]; omega
  obtain ⟨hm1, hm2⟩ := fixed_body_arith _ hc256
  have hcond : buffer_size <
      (8 + (unpack_header ((streamBytes s).take 8)).count * 32 % U64) % U64 := by
    rw [hm1, hm2, hcn]
    omega
  have hred : mitch_recv_message s mem buffer_size =
      ⟨-2, writeBytes mem 0 ((streamBytes s).take 8), s1⟩ := by
    simp only [mitch_recv_message, heq]
    rw [if_neg hmt, if_pos hcond]
  refine ⟨by rw [hred], by rw [hred]; exact hsb1, ?_⟩
  intro i hi
  rw [hred]
  show writeBytes mem 0 ((streamBytes s).take 8) i = mem i
  rw [writeBytes_apply, if_neg]
  intro hcontra
  have : ((streamBytes s).take 8).length ≤ 8 := by simp [List.length_take]
  omega

/-- Witness for C6: a 40-byte trade message against a 39-byte buffer is
refused with -2 and the buffer beyond the header is untouched. -/
theorem recv_fixed_buffer_too_small_witness :
    (mitch_recv_message [[116, 0, 0, 0, 0, 0, 0, 1]] (fun _ => 7) 39).ret = -2 ∧
    (mitch_recv_message [[116, 0, 0, 0, 0, 0, 0, 1]] (fun _ => 7) 39).mem 8 = 7 := by
  have h := recv_fixed_buffer_too_small [[116, 0, 0, 0, 0, 0, 0, 1]] (fun _ => 7) 39
    (by decide) (by decide) (by decide) (by decide)
  exact ⟨h.1, (h.2.2 8 (by omega)).trans rfl⟩

/-- C10: for every stream whose next header carries a non-order-book tag
and count 0, `mitch_recv_message` succeeds with return value 8, consumes
only the 8 header bytes, and writes nothing beyond the 8 header bytes,
provided the buffer holds at least 8 bytes: a count of 0 is never
rejected even though the data model restricts count to 1..255. -/
theorem recv_count_zero_accepted (s : Chunks) (mem : Nat → Nat) (buffer_size : Nat)
    (hgs : goodStream s) (hlen : 8 ≤ (streamBytes s).length)
    (htag : (streamBytes s).getD 0 0 % 256 ≠ MITCH_MSG_TYPE_ORDER_BOOK)
    (hcnt : (streamBytes s).getD 7 0 % 256 = 0)
    (hbs : 8 ≤ buffer_size) :
    (mitch_recv_message s mem buffer_size).ret = 8 ∧
    streamBytes (mitch_recv_message s mem buffer_size).rest = (streamBytes s).drop 8 ∧
    (∀ i, 8 ≤ i → (mitch_recv_message s mem buffer_size).mem i = mem i) := by
  obtain ⟨s1, heq, hgs1, hsb1⟩ := recv_tcp_complete 8 s hgs hlen
  have hmt : ¬ (unpack_header ((streamBytes s).take 8)).message_type =
      MITCH_MSG_TYPE_ORDER_BOOK := by
    show ¬ ((streamBytes s).take 8).getD 0 0 % 256 = _
    rw [getD_take _ _ 8 0 (by omega)]
    exact htag
  have hcn : (unpack_header ((streamBytes s).take 8)).count = 0 := by
    show ((streamBytes s).take 8).getD 7 0 % 256 = 0
    rw [getD_take _ _ 8 7 (by omega)]
    exact hcnt
  have hred : mitch_recv_message s mem buffer_size =
      ⟨Int.ofNat (8 + 0 * 32 % U64), writeBytes mem 0 ((streamBytes s).take 8), s1⟩ := by
    simp only [mitch_recv_message, heq]
    rw [if_neg hmt, hcn]
    rw [if_neg (by unfold U64; simp; omega), if_neg (by unfold U64; simp)]
  refine ⟨by rw [hred]; rfl, by rw [hred]; exact hsb1, ?_⟩
  intro i hi
  rw [hred]
  show writeBytes mem 0 ((streamBytes s).take 8) i = mem i
  rw [writeBytes_apply, if_neg]
  intro hcontra
  have : ((streamBytes s).take 8).length ≤ 8 := by simp [List.length_take]
  omega

/-- Witness for C10: a ticker header with count 0 and nothing behind it is
accepted with return value 8. -/
theorem recv_count_zero_accepted_witness :
    (mitch_recv_message [[115, 1, 2, 3, 4, 5, 6, 0]] (fun _ => 9) 8).ret = 8 ∧
    streamBytes (mitch_recv_message [[115, 1, 2, 3, 4, 5, 6, 0]] (fun _ => 9) 8).rest = [] ∧
    (mitch_recv_message [[115, 1, 2, 3, 4, 5, 6, 0]] (fun _ => 9) 8).mem 8 = 9 := by
  have h := recv_count_zero_accepted [[115, 1, 2, 3, 4, 5, 6, 0]] (fun _ => 9) 8
    (by decide) (by decide) (by decide) (by decide) (by decide)
  exact ⟨h.1, h.2.1.trans rfl, (h.2.2 8 (by omega)).trans rfl⟩

/-- C9: on the order-book path (tag q, count 1) `mitch_recv_message`
receives the 32-byte fixed prefix into the caller's buffer at offset 8
before the message length is compared with the buffer size, so whenever
`buffer_size < 40` the function returns BufferTooSmall -2 with bytes
8..39 of the buffer already overwritten by stream data: the buffer-size
check does not guard the fixed-prefix write. -/
theorem recv_orderbook_writes_before_check (s : Chunks) (mem : Nat → Nat)
    (buffer_size : Nat) (hgs : goodStream s) (hlen : 40 ≤ (streamBytes s).length)
    (htag : (streamBytes s).getD 0 0 % 256 = MITCH_MSG_TYPE_ORDER_BOOK)
    (hcnt : (streamBytes s).getD 7 0 % 256 = 1)
    (hbs : buffer_size < 40) :
    (mitch_recv_message s mem buffer_size).ret = -2 ∧
    (∀ i, 8 ≤ i → i < 40 →
      (mitch_recv_message s mem buffer_size).mem i = (streamBytes s).getD i 0 % 256) := by
  obtain ⟨s1, heq, hgs1, hsb1⟩ := recv_tcp_complete 8 s hgs (by omega)
  have hlen2 : 32 ≤ (streamBytes s1).length := by
    rw [hsb1, List.length_drop]
    omega
  obtain ⟨s2, heq2, hgs2, hsb2⟩ := recv_tcp_complete 32 s1 hgs1 hlen2
  have hmt : (unpack_header ((streamBytes s).take 8)).message_type =
      MITCH_MSG_TYPE_ORDER_BOOK := by
    show ((streamBytes s).take 8).getD 0 0 % 256 = _
    rw [getD_take _ _ 8 0 (by omega)]
    exact htag
  have hcn : (unpack_header ((streamBytes s).take 8)).count = 1 := by
    show ((streamBytes s).take 8).getD 7 0 % 256 = 1
    rw [getD_take _ _ 8 7 (by omega)]
    exact hcnt
  have key : ∀ ntv, ntv < 65536 → buffer_size < (8 + ob_body_size ntv) % U64 := by
    intro ntv hv
    rw [ob_body_size_eq ntv hv, Nat.mod_eq_of_lt (by unfold U64; omega)]
    omega
  have hred : mitch_recv_message s mem buffer_size =
      ⟨-2, writeBytes (writeBytes mem 0 ((streamBytes s).take 8)) 8
        ((streamBytes s1).take 32), s2⟩ := by
    simp only [mitch_recv_message, heq, heq2]
    rw [if_pos hmt, if_neg (fun hne => hne hcn), if_pos (key _ (readU16be_lt _ _))]
  have hPlen : ((streamBytes s1).take 32).length = 32 := by
    simp [List.length_take]
    omega
  refine ⟨by rw [hred], ?_⟩
  intro i hi8 hi40
  rw [hred]
  show writeBytes (writeBytes mem 0 ((streamBytes s).take 8)) 8
    ((streamBytes s1).take 32) i = _
  rw [writeBytes_apply, if_pos ⟨hi8, by rw [hPlen]; omega⟩]
  rw [getD_take _ _ 32 (i - 8) (by omega), hsb1, getD_drop]
  have h8 : 8 + (i - 8) = i := by omega
  rw [h8]

/-- Witness for C9: a 40-byte order-book message against a 39-byte buffer
returns -2, yet buffer byte 8 already holds the first prefix byte from the
stream. -/
theorem recv_orderbook_writes_before_check_witness :
    (mitch_recv_message [[113, 0, 0, 0, 0, 0, 0, 1], List.replicate 32 7]
      (fun _ => 0) 39).ret = -2 ∧
    (mitch_recv_message [[113, 0, 0, 0, 0, 0, 0, 1], List.replicate 32 7]
      (fun _ => 0) 39).mem 8 = 7 := by
  have h := recv_orderbook_writes_before_check
    [[113, 0, 0, 0, 0, 0, 0, 1], List.replicate 32 7] (fun _ => 0) 39
    (by decide) (by decide) (by decide) (by decide) (by decide)
  exact ⟨h.1, (h.2 8 (by omega) (by omega)).trans (by decide)⟩

/-- The num_ticks value a complete order-book message carries at wire
bytes 32-33 (offset 24-25 of its body), big-endian. -/
def wireNumTicks (l : List Nat) : Nat := l.getD 32 0 % 256 * 256 + l.getD 33 0 % 256

/-- C7: the framing layer reassembles a message delivered in arbitrary
partial reads: `mitch_recv_tcp` loops until exactly the requested number
of bytes has been obtained (first conjunct); for a complete fixed-type
message spread over arbitrarily chunked reads `mitch_recv_message` returns
the total length `8 + 32*count` and leaves exactly the message's wire
bytes, unchanged, at buffer offsets `0 .. 8 + 32*count - 1` (second
conjunct); and for a complete order-book message (tag q, count 1, total
length `8 + 32 + 4*num_ticks`) spread over arbitrarily chunked reads it
likewise returns the total length with the unchanged wire bytes assembled
in the buffer (third conjunct). -/
theorem recv_message_assembles :
    (∀ (req : Nat) (s : Chunks), goodStream s → req ≤ (streamBytes s).length →
      ∃ s', mitch_recv_tcp s req = some ((streamBytes s).take req, s') ∧
        streamBytes s' = (streamBytes s).drop req) ∧
    (∀ (s : Chunks) (mem : Nat → Nat) (buffer_size : Nat), goodStream s →
      (streamBytes s).getD 0 0 % 256 ≠ MITCH_MSG_TYPE_ORDER_BOOK →
      8 + ((streamBytes s).getD 7 0 % 256) * 32 ≤ (streamBytes s).length →
      8 + ((streamBytes s).getD 7 0 % 256) * 32 ≤ buffer_size →
      (mitch_recv_message s mem buffer_size).ret =
        Int.ofNat (8 + ((streamBytes s).getD 7 0 % 256) * 32) ∧
      (∀ i, i < 8 + ((streamBytes s).getD 7 0 % 256) * 32 →
        (mitch_recv_message s mem buffer_size).mem i = (streamBytes s).getD i 0 % 256) ∧
      streamBytes (mitch_recv_message s mem buffer_size).rest =
        (streamBytes s).drop (8 + ((streamBytes s).getD 7 0 % 256) * 32)) ∧
    (∀ (s : Chunks) (mem : Nat → Nat) (buffer_size : Nat), goodStream s →
      (streamBytes s).getD 0 0 % 256 = MITCH_MSG_TYPE_ORDER_BOOK →
      (streamBytes s).getD 7 0 % 256 = 1 →
      8 + 32 + 4 * wireNumTicks (streamBytes s) ≤ (streamBytes s).length →
      8 + 32 + 4 * wireNumTicks (streamBytes s) ≤ buffer_size →
      (mitch_recv_message s mem buffer_size).ret =
        Int.ofNat (8 + 32 + 4 * wireNumTicks (streamBytes s)) ∧
      (∀ i, i < 8 + 32 + 4 * wireNumTicks (streamBytes s) →
        (mitch_recv_message s mem buffer_size).mem i = (streamBytes s).getD i 0 % 256) ∧
      streamBytes (mitch_recv_message s mem buffer_size).rest =
        (streamBytes s).drop (8 + 32 + 4 * wireNumTicks (streamBytes s))) := by
  refine ⟨?_, ?_, ?_⟩
  · intro req s hgs hlen
    obtain ⟨s', h1, _, h3⟩ := recv_tcp_complete req s hgs hlen
    exact ⟨s', h1, h3⟩
  · intro s mem buffer_size hgs htag hlen hbs
    obtain ⟨s1, heq, hgs1, hsb1⟩ := recv_tcp_complete 8 s hgs (by omega)
    have hmt : ¬ (unpack_header ((streamBytes s).take 8)).message_type =
        MITCH_MSG_TYPE_ORDER_BOOK := by
      show ¬ ((streamBytes s).take 8).getD 0 0 % 256 = _
      rw [getD_take _ _ 8 0 (by omega)]
      exact htag
    have hcn : (unpack_header ((streamBytes s).take 8)).count =
        (streamBytes s).getD 7 0 % 256 := by
      show ((streamBytes s).take 8).getD 7 0 % 256 = _
      rw [getD_take _ _ 8 7 (by omega)]
    obtain ⟨hm1, hm2⟩ := fixed_body_arith ((streamBytes s).getD 7 0 % 256) (by omega)
    have hwmem1 : ∀ i, i < 8 →
        writeBytes mem 0 ((streamBytes s).take 8) i = (streamBytes s).getD i 0 % 256 := by
      intro i hi
      rw [writeBytes_apply, if_pos ⟨by omega, by simp [List.length_take]; omega⟩]
      rw [Nat.sub_zero, getD_take _ _ 8 i (by omega)]
    by_cases hc0 : (streamBytes s).getD 7 0 % 256 = 0
    · have hred : mitch_recv_message s mem buffer_size =
          ⟨Int.ofNat (8 + 0 * 32 % U64), writeBytes mem 0 ((streamBytes s).take 8), s1⟩ := by
        simp only [mitch_recv_message, heq]
        rw [if_neg hmt, hcn, hc0]
        rw [if_neg (by unfold U64; simp; omega), if_neg (by unfold U64; simp)]
      rw [hred, hc0]
      refine ⟨by rfl, ?_, by simpa using hsb1⟩
      intro i hi
      exact hwmem1 i (by omega)
    · have hlen2 : ((streamBytes s).getD 7 0 % 256) * 32 ≤ (streamBytes s1).length := by
        rw [hsb1, List.length_drop]
        omega
      obtain ⟨s2, heq2, hgs2, hsb2⟩ :=
        recv_tcp_complete (((streamBytes s).getD 7 0 % 256) * 32) s1 hgs1 hlen2
      have hred : mitch_recv_message s mem buffer_size =
          ⟨Int.ofNat (8 + ((streamBytes s).getD 7 0 % 256) * 32),
           writeBytes (writeBytes mem 0 ((streamBytes s).take 8)) 8
             ((streamBytes s1).take (((streamBytes s).getD 7 0 % 256) * 32)), s2⟩ := by
        simp only [mitch_recv_message, heq]
        rw [if_neg hmt, hcn, hm1]
        rw [if_neg (by rw [hm2]; omega), if_pos (by omega), heq2]
      have hBlen : ((streamBytes s1).take (((streamBytes s).getD 7 0 % 256) * 32)).length =
          ((streamBytes s).getD 7 0 % 256) * 32 := by
        rw [List.length_take]
        omega
      rw [hred]
      refine ⟨by rfl, ?_, ?_⟩
      · intro i hi
        show writeBytes (writeBytes mem 0 ((streamBytes s).take 8)) 8
          ((streamBytes s1).take (((streamBytes s).getD 7 0 % 256) * 32)) i = _
        by_cases hi8 : i < 8
        · rw [writeBytes_apply, if_neg (by rw [hBlen]; omega)]
          exact hwmem1 i hi8
        · rw [writeBytes_apply, if_pos ⟨by omega, by rw [hBlen]; omega⟩]
          rw [getD_take _ _ _ (i - 8) (by omega), hsb1, getD_drop]
          have h8 : 8 + (i - 8) = i := by omega
          rw [h8]
      · show streamBytes s2 = _
        rw [hsb2, hsb1, List.drop_drop]
  · intro s mem buffer_size hgs htag hcnt hlen hbs
    have h64 : (2 : Nat) ^ 64 = 18446744073709551616 := by norm_num
    have hnt65 : wireNumTicks (streamBytes s) < 65536 := by unfold wireNumTicks; omega
    obtain ⟨s1, heq, hgs1, hsb1⟩ := recv_tcp_complete 8 s hgs (by omega)
    have hlen2 : 32 ≤ (streamBytes s1).length := by
      rw [hsb1, List.length_drop]
      omega
    obtain ⟨s2, heq2, hgs2, hsb2⟩ := recv_tcp_complete 32 s1 hgs1 hlen2
    have hsb2' : streamBytes s2 = (streamBytes s).drop 40 := by
      rw [hsb2, hsb1, List.drop_drop]
    have hmt : (unpack_header ((streamBytes s).take 8)).message_type =
        MITCH_MSG_TYPE_ORDER_BOOK := by
      show ((streamBytes s).take 8).getD 0 0 % 256 = _
      rw [getD_take _ _ 8 0 (by omega)]
      exact htag
    have hcn : (unpack_header ((streamBytes s).take 8)).count = 1 := by
      show ((streamBytes s).take 8).getD 7 0 % 256 = 1
      rw [getD_take _ _ 8 7 (by omega)]
      exact hcnt
    have hHlen : ((streamBytes s).take 8).length = 8 := by
      rw [List.length_take]
      omega
    have hPlen : ((streamBytes s1).take 32).length = 32 := by
      rw [List.length_take]
      omega
    have hm2low : ∀ j, j < 8 →
        writeBytes (writeBytes mem 0 ((streamBytes s).take 8)) 8
          ((streamBytes s1).take 32) j = (streamBytes s).getD j 0 % 256 := by
      intro j hj
      rw [writeBytes_apply, if_neg (by omega)]
      rw [writeBytes_apply, if_pos ⟨by omega, by rw [hHlen]; omega⟩]
      rw [Nat.sub_zero, getD_take _ _ 8 j (by omega)]
    have hm2mid : ∀ j, 8 ≤ j → j < 40 →
        writeBytes (writeBytes mem 0 ((streamBytes s).take 8)) 8
          ((streamBytes s1).take 32) j = (streamBytes s).getD j 0 % 256 := by
      intro j hj8 hj40
      rw [writeBytes_apply, if_pos ⟨hj8, by rw [hPlen]; omega⟩]
      rw [getD_take _ _ 32 (j - 8) (by omega), hsb1, getD_drop]
      have h8 : 8 + (j - 8) = j := by omega
      rw [h8]
    have hntv : readU16be
        (writeBytes (writeBytes mem 0 ((streamBytes s).take 8)) 8
          ((streamBytes s1).take 32) 32)
        (writeBytes (writeBytes mem 0 ((streamBytes s).take 8)) 8
          ((streamBytes s1).take 32) 33) = wireNumTicks (streamBytes s) := by
      rw [hm2mid 32 (by omega) (by omega), hm2mid 33 (by omega) (by omega)]
      unfold readU16be wireNumTicks
      omega
    have hvol : ob_volumes_size (wireNumTicks (streamBytes s)) =
        4 * wireNumTicks (streamBytes s) := by
      unfold ob_volumes_size U64
      rw [Nat.mod_eq_of_lt (by omega)]
      omega
    have hbody : (8 + ob_body_size (wireNumTicks (streamBytes s))) % U64 =
        40 + 4 * wireNumTicks (streamBytes s) := by
      rw [ob_body_size_eq _ hnt65]
      unfold U64
      rw [Nat.mod_eq_of_lt (by omega)]
      omega
    by_cases hnt0 : wireNumTicks (streamBytes s) = 0
    · have hred : mitch_recv_message s mem buffer_size =
          ⟨Int.ofNat (8 + ob_body_size 0),
           writeBytes (writeBytes mem 0 ((streamBytes s).take 8)) 8
             ((streamBytes s1).take 32), s2⟩ := by
        simp only [mitch_recv_message, heq, heq2]
        rw [if_pos hmt, if_neg (fun hne => hne hcn), hntv, hnt0]
        rw [if_neg (by rw [show (8 + ob_body_size 0) % U64 = 40 from by decide]; omega),
          if_neg (by decide)]
      rw [hred, hnt0]
      refine ⟨?_, ?_, ?_⟩
      · show Int.ofNat (8 + ob_body_size 0) = Int.ofNat (8 + 32 + 4 * 0)
        decide
      · intro i hi
        show writeBytes (writeBytes mem 0 ((streamBytes s).take 8)) 8
          ((streamBytes s1).take 32) i = _
        by_cases hi8 : i < 8
        · exact hm2low i hi8
        · exact hm2mid i (by omega) (by omega)
      · show streamBytes s2 = (streamBytes s).drop (8 + 32 + 4 * 0)
        rw [show 8 + 32 + 4 * 0 = 40 from by omega]
        exact hsb2'
    · have hlen3 : 4 * wireNumTicks (streamBytes s) ≤ (streamBytes s2).length := by
        rw [hsb2', List.length_drop]
        omega
      obtain ⟨s3, heq3, hgs3, hsb3⟩ :=
        recv_tcp_complete (4 * wireNumTicks (streamBytes s)) s2 hgs2 hlen3
      have hred : mitch_recv_message s mem buffer_size =
          ⟨Int.ofNat (8 + ob_body_size (wireNumTicks (streamBytes s))),
           writeBytes (writeBytes (writeBytes mem 0 ((streamBytes s).take 8)) 8
             ((streamBytes s1).take 32)) 40
             ((streamBytes s2).take (4 * wireNumTicks (streamBytes s))), s3⟩ := by
        simp only [mitch_recv_message, heq, heq2]
        rw [if_pos hmt, if_neg (fun hne => hne hcn), hntv, hvol]
        rw [if_neg (by rw [hbody]; omega), if_pos (by omega), heq3]
      have hVlen : ((streamBytes s2).take (4 * wireNumTicks (streamBytes s))).length =
          4 * wireNumTicks (streamBytes s) := by
        rw [List.length_take]
        omega
      rw [hred]
      refine ⟨?_, ?_, ?_⟩
      · show Int.ofNat (8 + ob_body_size (wireNumTicks (streamBytes s))) =
          Int.ofNat (8 + 32 + 4 * wireNumTicks (streamBytes s))
        exact congrArg Int.ofNat (by rw [ob_body_size_eq _ hnt65]; omega)
      · intro i hi
        show writeBytes (writeBytes (writeBytes mem 0 ((streamBytes s).take 8)) 8
          ((streamBytes s1).take 32)) 40
          ((streamBytes s2).take (4 * wireNumTicks (streamBytes s))) i = _
        by_cases hi40 : i < 40
        · rw [writeBytes_apply, if_neg (by rw [hVlen]; omega)]
          by_cases hi8 : i < 8
          · exact hm2low i hi8
          · exact hm2mid i (by omega) hi40
        · rw [writeBytes_apply, if_pos ⟨by omega, by rw [hVlen]; omega⟩]
          rw [getD_take _ _ _ (i - 40) (by omega), hsb2', getD_drop]
          have h40 : 40 + (i - 40) = i := by omega
          rw [h40]
      · show streamBytes s3 = _
        rw [hsb3, hsb2', List.drop_drop]

/-- A 40-byte trade message delivered in three partial reads of sizes 3, 7
and 30. -/
def chunkedTradeStream : Chunks :=
  [[116, 0, 0], [0, 0, 0, 0, 1, 90, 91], List.replicate 30 3]

/-- A 44-byte order-book message (tag q, count 1, num_ticks 1) delivered
in three partial reads of sizes 3, 7 and 34. -/
def chunkedOrderBookStream : Chunks :=
  [[113, 0, 0], [0, 0, 0, 0, 1, 8, 8],
   List.replicate 22 6 ++ [0, 1] ++ List.replicate 6 0 ++ [1, 2, 3, 4]]

/-- Witness for C7: the three-way chunked 40-byte trade message and the
three-way chunked 44-byte order-book message are both reassembled,
returning the exact total length with the wire bytes in the buffer and the
stream fully consumed. -/
theorem recv_message_assembles_witness :
    (mitch_recv_message chunkedTradeStream (fun _ => 0) 64).ret = 40 ∧
    (mitch_recv_message chunkedTradeStream (fun _ => 0) 64).mem 0 = 116 ∧
    (mitch_recv_message chunkedTradeStream (fun _ => 0) 64).mem 8 = 90 ∧
    (mitch_recv_message chunkedTradeStream (fun _ => 0) 64).mem 39 = 3 ∧
    streamBytes (mitch_recv_message chunkedTradeStream (fun _ => 0) 64).rest = [] ∧
    (mitch_recv_message chunkedOrderBookStream (fun _ => 0) 64).ret = 44 ∧
    (mitch_recv_message chunkedOrderBookStream (fun _ => 0) 64).mem 8 = 8 ∧
    (mitch_recv_message chunkedOrderBookStream (fun _ => 0) 64).mem 40 = 1 ∧
    (mitch_recv_message chunkedOrderBookStream (fun _ => 0) 64).mem 43 = 4 ∧
    streamBytes (mitch_recv_message chunkedOrderBookStream (fun _ => 0) 64).rest = [] := by
  have h := recv_message_assembles.2.1 chunkedTradeStream (fun _ => 0) 64
    (by decide) (by decide) (by decide) (by decide)
  have h2 := recv_message_assembles.2.2 chunkedOrderBookStream (fun _ => 0) 64
    (by decide) (by decide) (by decide) (by decide) (by decide)
  exact ⟨h.1.trans (by decide), (h.2.1 0 (by decide)).trans (by decide),
    (h.2.1 8 (by decide)).trans (by decide), (h.2.1 39 (by decide)).trans (by decide),
    h.2.2.trans (by decide),
    h2.1.trans (by decide), (h2.2.1 8 (by decide)).trans (by decide),
    (h2.2.1 40 (by decide)).trans (by decide), (h2.2.1 43 (by decide)).trans (by decide),
    h2.2.2.trans (by decide)⟩

end Mitch
